import Mathlib

/-!
Verification model of the ETLNewsletters incremental ingestion pipeline.

The definitions below are a shallow embedding of the Python sources:

* `src/incremental_email_handler.py` — the Local Ledger
  (`IncrementalEmailHandler.merge_emails`, `save_merged_emails`);
* `src/gmailextract.py` — the Ingestion Coordinator
  (`parse_date`, `construct_date_query`, `process_message`, the paging
  loop in `main`);
* `src/mongo_loader.py` / `src/sync_mongodb.py` — the Store Synchronizer
  (`MongoDBLoader._process_batch`).

Python dictionaries are modelled as structures, machine state as explicit
state records, and Python exceptions as `Except` values.
-/

namespace ETLNews

/-! ## The Local Ledger (`src/incremental_email_handler.py`)

A ledger entry is a JSON object.  The ledger code reads exactly three keys
of it: `email['id']` (always present), `email.get('parsedDate', '')` and
`email.get('from', '')`.  Because `save_merged_emails` behaves differently
when the `parsedDate` key is absent versus present with value `None`, the
model keeps the three-way distinction. -/

/-- Value of the `parsedDate` key of a stored email dictionary:
the key may be absent, present with Python `None`, or an ISO string. -/
inductive PDate where
  | absent
  | null
  | str (s : String)
  deriving Repr, DecidableEq

/-- One email dictionary as stored in the ledger (`filtered_emails.json`).
Only the keys the ledger code reads are modelled. -/
structure Email where
  id : String
  parsedDate : PDate
  sender : String
  subject : String
  deriving Repr, DecidableEq

/-- Ids of a list of ledger emails, mirroring the keys of the
`existing_lookup` dictionary built in `merge_emails` (and the
`existing_ids` set built in `load_existing_data`). -/
def existingIds (emails : List Email) : List String :=
  emails.map (·.id)

/-- Embedding of `IncrementalEmailHandler.merge_emails`
(`src/incremental_email_handler.py` lines 75–103): start from a copy of
`existing_emails`, then append each new email whose `id` is not a key of
`existing_lookup`.  The lookup is built once from `existing_emails` and is
not updated while iterating over `new_emails`. -/
def mergeEmails (existingEmails newEmails : List Email) : List Email :=
  existingEmails ++
    newEmails.filter (fun e => !(existingIds existingEmails).contains e.id)

/-! ### Saving: `save_merged_emails`

`save_merged_emails` sorts the merged list with
`sorted(merged_emails, key=lambda x: x.get('parsedDate', ''), reverse=True)`.
The key is the Python value `x.get('parsedDate', '')`: the empty string when
the key is absent, `None` when the key is present with value `None`, the
string otherwise. -/

/-- Python sort key produced by `lambda x: x.get('parsedDate', '')`. -/
inductive SortKey where
  | pynone
  | pystr (s : String)
  deriving Repr, DecidableEq

/-- Key extraction `x.get('parsedDate', '')` of `save_merged_emails`. -/
def sortKey (e : Email) : SortKey :=
  match e.parsedDate with
  | .absent => .pystr ""
  | .null => .pynone
  | .str s => .pystr s

/-- Whether the sort key of `e` is Python `None`. -/
def keyIsNone (e : Email) : Bool :=
  match sortKey e with
  | .pynone => true
  | .pystr _ => false

/-- String key of `e` when it is not `None` (absent keys map to `""`). -/
def keyStr (e : Email) : String :=
  match sortKey e with
  | .pynone => ""
  | .pystr s => s

/-- Python `<` on strings: lexicographic comparison by code point. -/
def pyStrLt : List Char → List Char → Bool
  | [], [] => false
  | [], _ :: _ => true
  | _ :: _, [] => false
  | a :: as, b :: bs =>
    if a.toNat < b.toNat then true
    else if b.toNat < a.toNat then false
    else pyStrLt as bs

/-- Python `<=` on strings. -/
def pyStrLe (a b : List Char) : Bool := !pyStrLt b a

/-- Stable descending insertion by string key: `e` is placed before the
first element whose key is at most `keyStr e`, so earlier input elements
precede later ones on equal keys, exactly as Python's stable
`sorted(..., reverse=True)` orders them. -/
def insertDesc (e : Email) : List Email → List Email
  | [] => [e]
  | x :: xs =>
    if pyStrLe (keyStr x).data (keyStr e).data then e :: x :: xs
    else x :: insertDesc e xs

/-- Stable sort, descending by string key. -/
def stableSortDesc : List Email → List Email
  | [] => []
  | e :: es => insertDesc e (stableSortDesc es)

/-- Denotational model of CPython `sorted(emails, key=..., reverse=True)`
for the keys that occur here (`None` or `str`).  CPython's sort compares
every element's key at least once whenever the list has two or more
elements, and any comparison involving `None` (against `str` or against
`None`) raises `TypeError`; when all keys are strings the result is the
stable descending order (`reverse=True` keeps equal-keyed elements in
input order), computed here by a stable insertion sort. -/
def pySortedByDateDesc (emails : List Email) : Except String (List Email) :=
  if emails.length ≤ 1 then .ok emails
  else if emails.any keyIsNone then
    .error "TypeError: comparison not supported between instances of str and NoneType"
  else .ok (stableSortDesc emails)

/-- Embedding of `IncrementalEmailHandler.save_merged_emails`
(`src/incremental_email_handler.py` lines 105–129): back up the prior
snapshot, sort by `parsedDate` descending, write.  The value is the list
written to disk; a `TypeError` escaping `sorted` is re-raised by the
`except` clause, so it surfaces as an `Except.error`. -/
def saveMergedEmails (mergedEmails : List Email) : Except String (List Email) :=
  pySortedByDateDesc mergedEmails

/-- First of the two same-id batch entries used for claim C9. -/
def dupEmailA : Email :=
  { id := "msg-001", parsedDate := .str "2024-11-20T09:00:00+00:00",
    sender := "alice@newsletter.example", subject := "first copy" }

/-- Second batch entry with the same id but different fields. -/
def dupEmailB : Email :=
  { id := "msg-001", parsedDate := .str "2024-11-21T09:00:00+00:00",
    sender := "bob@newsletter.example", subject := "second copy" }

/-! ## Dates and times

Python `datetime` objects are modelled as explicit records.  A naive
datetime is the six wall-clock fields; an aware datetime adds a fixed
UTC offset in seconds (`datetime.timezone(timedelta)`).  Aware datetimes
compare by instant, i.e. after subtracting the offset. -/

/-- Naive `datetime` — wall-clock fields only. -/
structure NaiveDT where
  year : Nat
  month : Nat
  day : Nat
  hour : Nat
  minute : Nat
  second : Nat
  deriving Repr, DecidableEq

/-- Timezone-aware `datetime`: wall-clock fields plus a fixed UTC offset
in seconds (positive east of UTC), as built by
`base_dt.replace(tzinfo=timezone(offset))`. -/
structure AwareDT where
  dt : NaiveDT
  tzSeconds : Int
  deriving Repr, DecidableEq

/-- Gregorian leap year test. -/
def isLeapYear (y : Nat) : Bool :=
  (y % 4 == 0 && y % 100 != 0) || y % 400 == 0

/-- Length of month `m` of year `y`. -/
def daysInMonth (y m : Nat) : Nat :=
  if m == 2 then (if isLeapYear y then 29 else 28)
  else if m == 4 || m == 6 || m == 9 || m == 11 then 30
  else 31

/-- Days in year `y` before the first of month `m`. -/
def daysBeforeMonth (y m : Nat) : Nat :=
  (List.range (m - 1)).foldl (fun acc i => acc + daysInMonth y (i + 1)) 0

/-- Proleptic-Gregorian ordinal of a date (Python `date.toordinal`:
0001-01-01 is day 1). -/
def toOrdinal (d : NaiveDT) : Nat :=
  365 * (d.year - 1) + (d.year - 1) / 4 - (d.year - 1) / 100 + (d.year - 1) / 400
    + daysBeforeMonth d.year d.month + d.day

/-- Seconds of a naive datetime on the proleptic-Gregorian axis. -/
def naiveSeconds (d : NaiveDT) : Int :=
  (toOrdinal d : Int) * 86400 + d.hour * 3600 + d.minute * 60 + d.second

/-- Instant of an aware datetime, in seconds UTC. -/
def utcSeconds (a : AwareDT) : Int :=
  naiveSeconds a.dt - a.tzSeconds

/-- Python `<` on two aware datetimes: compare instants. -/
def awareLt (a b : AwareDT) : Bool :=
  utcSeconds a < utcSeconds b

/-- Python `==` on two aware datetimes: equal instants. -/
def awareEq (a b : AwareDT) : Bool :=
  utcSeconds a == utcSeconds b

/-! ### Small string helpers

All helpers work on `List Char` with structural (or fuel-based)
recursion, so that concrete evaluations reduce in the kernel. -/

/-- Decimal digit value of a digit character. -/
def digitVal (c : Char) : Nat := c.toNat - 48

/-- Decimal digit character for `n < 10`. -/
def digitChar (n : Nat) : Char := Char.ofNat (48 + n)

/-- Decimal digits of `n` (fuel-based so it reduces in the kernel). -/
def natToStrAux : Nat → Nat → List Char → List Char
  | 0, _, acc => acc
  | fuel + 1, n, acc =>
    if n < 10 then digitChar n :: acc
    else natToStrAux fuel (n / 10) (digitChar (n % 10) :: acc)

/-- Decimal string of a natural number. -/
def natToStr (n : Nat) : String := String.mk (natToStrAux (n + 1) n [])

/-- Zero-pad the decimal form of `n` to width 2 (C `%02d`). -/
def pad2 (n : Nat) : String :=
  if n < 10 then "0" ++ natToStr n else natToStr n

/-- Zero-pad the decimal form of `n` to width 4 (C `%04d`, `%Y`). -/
def pad4 (n : Nat) : String :=
  let s := natToStr n
  String.mk (List.replicate (4 - s.length) '0' ++ s.data)

/-- Python `datetime.strftime('%Y/%m/%d')` (wall-clock fields). -/
def strftimeSlash (a : AwareDT) : String :=
  pad4 a.dt.year ++ "/" ++ pad2 a.dt.month ++ "/" ++ pad2 a.dt.day

/-- Python `datetime.strftime('%Y-%m-%d')` (wall-clock fields). -/
def strftimeDash (a : AwareDT) : String :=
  pad4 a.dt.year ++ "-" ++ pad2 a.dt.month ++ "-" ++ pad2 a.dt.day

/-- Python `datetime.isoformat()` of an aware datetime with whole-second
offset: `YYYY-MM-DDTHH:MM:SS+HH:MM[:SS]`. -/
def isoformat (a : AwareDT) : String :=
  let main := pad4 a.dt.year ++ "-" ++ pad2 a.dt.month ++ "-" ++ pad2 a.dt.day ++
    "T" ++ pad2 a.dt.hour ++ ":" ++ pad2 a.dt.minute ++ ":" ++ pad2 a.dt.second
  let sign := if a.tzSeconds < 0 then "-" else "+"
  let n := a.tzSeconds.natAbs
  let offs := sign ++ pad2 (n / 3600) ++ ":" ++ pad2 (n % 3600 / 60)
  if n % 60 == 0 then main ++ offs else main ++ offs ++ ":" ++ pad2 (n % 60)

/-- Strip the characters of `set` from both ends of a char list
(Python `str.strip(' )')`). -/
def stripCharsList (set : List Char) (cs : List Char) : List Char :=
  ((cs.dropWhile set.contains).reverse.dropWhile set.contains).reverse

/-- Strip whitespace from both ends (Python `str.strip()`). -/
def stripWs (cs : List Char) : List Char :=
  ((cs.dropWhile Char.isWhitespace).reverse.dropWhile Char.isWhitespace).reverse

/-- Python `\w` on ASCII input: letters, digits, underscore. -/
def isWordChar (c : Char) : Bool :=
  c.isAlphanum || c == '_'

/-- One scan step of `re.sub(r'(\w{3}), (\d)\b', r'\1, 0\2', s)` from
`parse_date` (`src/gmailextract.py` line 359): pad a single-digit
day-of-month after a three-word-character token and a comma.  The scan is
left-to-right and non-overlapping, exactly as `re.sub` performs it; the
fuel argument only makes the recursion structural. -/
def padDaysAux : Nat → List Char → List Char
  | 0, cs => cs
  | fuel + 1, c0 :: c1 :: c2 :: c3 :: c4 :: c5 :: rest =>
    if isWordChar c0 && isWordChar c1 && isWordChar c2 && c3 == ',' && c4 == ' '
        && c5.isDigit && (match rest with | [] => true | r :: _ => !isWordChar r) then
      c0 :: c1 :: c2 :: ',' :: ' ' :: '0' :: c5 :: padDaysAux fuel rest
    else
      c0 :: padDaysAux fuel (c1 :: c2 :: c3 :: c4 :: c5 :: rest)
  | _ + 1, cs => cs

/-- Day-of-month padding substitution of `parse_date`. -/
def padDays (cs : List Char) : List Char := padDaysAux cs.length cs

/-- Python `main_part.rsplit(None, 1)` restricted to the unpacking
`date_part, tz_part = ...` of `parse_date`: split off the last
whitespace-separated token.  Returns `none` when the split yields fewer
than two parts (empty or single-token string), in which case the source
raises `ValueError`. -/
def pyRsplitOnce (cs : List Char) : Option (List Char × List Char) :=
  let rev := cs.reverse.dropWhile Char.isWhitespace
  let token := (rev.takeWhile (fun c => !c.isWhitespace)).reverse
  let rev2 := (rev.dropWhile (fun c => !c.isWhitespace)).dropWhile Char.isWhitespace
  if token.isEmpty || rev2.isEmpty then none
  else some (rev2.reverse, token)

/-- Case-insensitive prefix match: consume `pat` (given lowercase) from
the front of the input, returning the rest. -/
def matchCI : List Char → List Char → Option (List Char)
  | [], cs => some cs
  | _ :: _, [] => none
  | p :: ps, c :: cs => if c.toLower == p then matchCI ps cs else none

/-- Match one abbreviation from `cands` (pairs of lowercase pattern and
value) at the front of the input. -/
def matchAbbrev (cands : List (String × Nat)) (cs : List Char) : Option (Nat × List Char) :=
  cands.findSome? (fun (p, v) => (matchCI p.data cs).map (fun rest => (v, rest)))

/-! ### `datetime.strptime`

Model of CPython `_strptime` for the two formats `parse_date` uses:
`"%a, %d %b %Y %H:%M:%S %z"` and `"%a, %d %b %Y %H:%M:%S"`.  Each
directive is compiled to the regex fragment `_strptime.TimeRE` uses;
whitespace in the format matches a nonempty whitespace run; the whole
input must be consumed; finally the `datetime` constructor validates the
fields (day against month length, second at most 59). -/

/-- Abbreviated weekday names recognised by `%a` (C locale). -/
def weekdayAbbrevs : List (String × Nat) :=
  [("mon", 0), ("tue", 1), ("wed", 2), ("thu", 3), ("fri", 4), ("sat", 5), ("sun", 6)]

/-- Abbreviated month names recognised by `%b` (C locale). -/
def monthAbbrevs : List (String × Nat) :=
  [("jan", 1), ("feb", 2), ("mar", 3), ("apr", 4), ("may", 5), ("jun", 6),
   ("jul", 7), ("aug", 8), ("sep", 9), ("oct", 10), ("nov", 11), ("dec", 12)]

/-- Consume a nonempty whitespace run (format whitespace is `\s+`). -/
def wsRun : List Char → Option (List Char)
  | c :: cs => if c.isWhitespace then some (cs.dropWhile Char.isWhitespace) else none
  | [] => none

/-- Consume one literal character of the format. -/
def litChar (ch : Char) : List Char → Option (List Char)
  | c :: cs => if c == ch then some cs else none
  | [] => none

/-- Two-digit-or-one-digit numeric directive: the two-digit branch is
taken when both characters are digits and the value satisfies `okTwo`
(the regex alternation lists the two-digit alternatives first), the
one-digit branch when the single digit satisfies `okOne`. -/
def parse2or1 (okTwo okOne : Nat → Bool) : List Char → Option (Nat × List Char)
  | c1 :: c2 :: rest =>
    if c1.isDigit && c2.isDigit && okTwo (digitVal c1 * 10 + digitVal c2) then
      some (digitVal c1 * 10 + digitVal c2, rest)
    else if c1.isDigit && okOne (digitVal c1) then some (digitVal c1, c2 :: rest)
    else none
  | [c1] => if c1.isDigit && okOne (digitVal c1) then some (digitVal c1, []) else none
  | [] => none

/-- Directive `%d`: `(3[01]|[12]\d|0[1-9]|[1-9])`. -/
def parseDirD : List Char → Option (Nat × List Char) :=
  parse2or1 (fun v => 1 ≤ v && v ≤ 31) (fun v => 1 ≤ v)

/-- Directive `%H`: `(2[0-3]|[0-1]\d|\d)`. -/
def parseDirH : List Char → Option (Nat × List Char) :=
  parse2or1 (fun v => v ≤ 23) (fun _ => true)

/-- Directive `%M`: `([0-5]\d|\d)`. -/
def parseDirM : List Char → Option (Nat × List Char) :=
  parse2or1 (fun v => v ≤ 59) (fun _ => true)

/-- Directive `%S`: `(6[01]|[0-5]\d|\d)`. -/
def parseDirS : List Char → Option (Nat × List Char) :=
  parse2or1 (fun v => v ≤ 61) (fun _ => true)

/-- Directive `%Y`: exactly four digits. -/
def parseDirY : List Char → Option (Nat × List Char)
  | c1 :: c2 :: c3 :: c4 :: rest =>
    if c1.isDigit && c2.isDigit && c3.isDigit && c4.isDigit then
      some (digitVal c1 * 1000 + digitVal c2 * 100 + digitVal c3 * 10 + digitVal c4, rest)
    else none
  | _ => none

/-- Optional `:` before a two-digit group inside `%z`. -/
def skipOptColon : List Char → List Char
  | ':' :: cs => cs
  | cs => cs

/-- Directive `%z`:
`(?:[+-]\d\d:?[0-5]\d(:?[0-5]\d(\.\d{1,6})?)?|Z)`, yielding the UTC
offset in seconds (fractional part dropped, as `_strptime` keeps it
separately as microseconds). -/
def parseDirZ : List Char → Option (Int × List Char)
  | 'Z' :: rest => some (0, rest)
  | c :: rest =>
    if c == '+' || c == '-' then
      match rest with
      | d1 :: d2 :: rest2 =>
        if d1.isDigit && d2.isDigit then
          match skipOptColon rest2 with
          | m1 :: m2 :: rest3 =>
            if m1.isDigit && m2.isDigit && digitVal m1 ≤ 5 then
              let hh := digitVal d1 * 10 + digitVal d2
              let mm := digitVal m1 * 10 + digitVal m2
              let withSec : Option (Nat × List Char) :=
                match skipOptColon rest3 with
                | s1 :: s2 :: rest4 =>
                  if s1.isDigit && s2.isDigit && digitVal s1 ≤ 5 then
                    some (digitVal s1 * 10 + digitVal s2,
                      match rest4 with
                      | '.' :: f1 :: restf =>
                        if f1.isDigit then restf.dropWhile Char.isDigit else rest4
                      | _ => rest4)
                  else none
                | _ => none
              let (ss, rest5) := match withSec with
                | some (ss, r) => (ss, r)
                | none => (0, rest3)
              let total : Int := hh * 3600 + mm * 60 + ss
              some (if c == '-' then -total else total, rest5)
            else none
          | _ => none
        else none
      | _ => none
    else none
  | [] => none

/-- Field validation performed by the `datetime` constructor once
`_strptime` has matched (month is already 1–12 from `%b`). -/
def mkNaive (y mo d hh mm ss : Nat) : Option NaiveDT :=
  if 1 ≤ y && y ≤ 9999 && 1 ≤ mo && mo ≤ 12 && 1 ≤ d && d ≤ daysInMonth y mo
      && hh ≤ 23 && mm ≤ 59 && ss ≤ 59 then
    some ⟨y, mo, d, hh, mm, ss⟩
  else none

/-- Shared body of the two `strptime` formats:
`%a, %d %b %Y %H:%M:%S` followed by the caller-specific tail. -/
def strptimeCommon (cs : List Char) : Option (Nat × Nat × Nat × Nat × Nat × Nat × List Char) := do
  let (_, r1) ← matchAbbrev weekdayAbbrevs cs
  let r2 ← litChar ',' r1
  let r3 ← wsRun r2
  let (d, r4) ← parseDirD r3
  let r5 ← wsRun r4
  let (mo, r6) ← matchAbbrev monthAbbrevs r5
  let r7 ← wsRun r6
  let (y, r8) ← parseDirY r7
  let r9 ← wsRun r8
  let (hh, r10) ← parseDirH r9
  let r11 ← litChar ':' r10
  let (mm, r12) ← parseDirM r11
  let r13 ← litChar ':' r12
  let (ss, r14) ← parseDirS r13
  pure (y, mo, d, hh, mm, ss, r14)

/-- `datetime.strptime(s, "%a, %d %b %Y %H:%M:%S %z")`. -/
def strptimeAware (cs : List Char) : Option AwareDT := do
  let (y, mo, d, hh, mm, ss, r14) ← strptimeCommon cs
  let r15 ← wsRun r14
  let (off, r16) ← parseDirZ r15
  if r16.isEmpty && off.natAbs < 86400 then
    let base ← mkNaive y mo d hh mm ss
    pure ⟨base, off⟩
  else none

/-- `datetime.strptime(s, "%a, %d %b %Y %H:%M:%S")`. -/
def strptimeNaive (cs : List Char) : Option NaiveDT := do
  let (y, mo, d, hh, mm, ss, r14) ← strptimeCommon cs
  if r14.isEmpty then mkNaive y mo d hh mm ss else none

/-! ### `parse_date` (`src/gmailextract.py` lines 326–426) -/

/-- Named-timezone table of `parse_date`. -/
def tzMappings : List (String × String) :=
  [("UTC", "+0000"), ("GMT", "+0000"), ("EST", "-0500"), ("EDT", "-0400"),
   ("CST", "-0600"), ("CDT", "-0500"), ("PST", "-0800"), ("PDT", "-0700")]

/-- Split a char list at the first occurrences of `sep`, like Python
`str.split(sep)` (fuel-based). -/
def splitOnCharAux : Nat → Char → List Char → List Char → List (List Char)
  | 0, _, acc, _ => [acc.reverse]
  | _ + 1, _, acc, [] => [acc.reverse]
  | fuel + 1, sep, acc, c :: cs =>
    if c == sep then acc.reverse :: splitOnCharAux fuel sep [] cs
    else splitOnCharAux fuel sep (c :: acc) cs

/-- Python `s.split('(')`. -/
def splitOnChar (sep : Char) (cs : List Char) : List (List Char) :=
  splitOnCharAux (cs.length + 1) sep [] cs

/-- Embedding of `parse_date` (`src/gmailextract.py` lines 326–426).
Steps, as in the source: reject the empty string; split off a
parenthetical timezone name; pad single-digit days; try the aware
`strptime` format; otherwise split off the trailing timezone token, parse
the naive format, map named abbreviations (first the token, then the
parenthetical name), default a bare offset to `+`, and match
`([+-])(\d{2})(\d{2})` at the start of the token (trailing characters are
ignored, as `re.match` is unanchored at the end).  Every failure raises,
modelled as `Except.error`. -/
def parseDate (dateStr : String) : Except String AwareDT :=
  if dateStr.data.isEmpty then .error "Empty date string"
  else
    let parts := splitOnChar '(' dateStr.data
    let mainPart :=
      if dateStr.data.contains '(' then stripWs (parts.headD []) else dateStr.data
    let parentheticalTz : Option (List Char) :=
      if dateStr.data.contains '(' then
        match parts with
        | _ :: p1 :: _ => some (stripCharsList [' ', ')'] p1)
        | _ => none
      else none
    let padded := padDays mainPart
    match strptimeAware padded with
    | some dt => .ok dt
    | none =>
      match pyRsplitOnce padded with
      | none => .error ("Invalid date format: " ++ String.mk padded)
      | some (datePart, tzTok) =>
        match strptimeNaive datePart with
        | none => .error "Failed to parse datetime part"
        | some base =>
          let tzTok1 : List Char :=
            match tzMappings.lookup (String.mk tzTok) with
            | some v => v.data
            | none =>
              match parentheticalTz.bind (fun p => tzMappings.lookup (String.mk p)) with
              | some v => v.data
              | none => tzTok
          let tzTok2 : List Char :=
            match tzTok1 with
            | '+' :: _ => tzTok1
            | '-' :: _ => tzTok1
            | _ => '+' :: tzTok1
          match tzTok2 with
          | s :: h1 :: h2 :: m1 :: m2 :: _ =>
            if h1.isDigit && h2.isDigit && m1.isDigit && m2.isDigit then
              let hours := digitVal h1 * 10 + digitVal h2
              let minutes := digitVal m1 * 10 + digitVal m2
              let total : Int :=
                (if s == '-' then -1 else 1) * (hours * 3600 + minutes * 60)
              if total.natAbs < 86400 then .ok ⟨base, total⟩
              else .error "Failed to process timezone"
            else .error ("Invalid timezone format: " ++ String.mk tzTok2)
          | _ => .error ("Invalid timezone format: " ++ String.mk tzTok2)

/-! ## `construct_date_query` (`src/gmailextract.py` lines 176–226)

The function receives the cutoff datetime and the `date_range` entry of
`IncrementalEmailHandler.get_statistics()` — either Python `None` (empty
ledger) or a dictionary with `earliest`/`latest` ISO strings (each
possibly `None`).  It parses the `latest` string with
`datetime.fromisoformat` after `.replace('Z', '+00:00')`. -/

/-- Wall-clock successor day (used by `timedelta` addition with a fixed
offset timezone, where the offset is unchanged). -/
def nextDay (d : NaiveDT) : NaiveDT :=
  if d.day < daysInMonth d.year d.month then { d with day := d.day + 1 }
  else if d.month < 12 then { d with day := 1, month := d.month + 1 }
  else { d with day := 1, month := 1, year := d.year + 1 }

/-- Add `n` days to the wall clock. -/
def addWallDays : Nat → NaiveDT → NaiveDT
  | 0, d => d
  | n + 1, d => addWallDays n (nextDay d)

/-- Add `h` hours to the wall clock. -/
def addWallHours (h : Nat) (d : NaiveDT) : NaiveDT :=
  let total := d.hour + h
  addWallDays (total / 24) { d with hour := total % 24 }

/-- Python `aware_dt + timedelta(days=n)`: the instant moves and the
fixed offset is unchanged, hence wall-clock addition. -/
def addDaysAware (n : Nat) (a : AwareDT) : AwareDT :=
  ⟨addWallDays n a.dt, a.tzSeconds⟩

/-- Python `aware_dt + timedelta(hours=h)`. -/
def addHoursAware (h : Nat) (a : AwareDT) : AwareDT :=
  ⟨addWallHours h a.dt, a.tzSeconds⟩

/-- Python `s.replace('Z', '+00:00')` (single-character pattern, all
occurrences). -/
def replaceZ (cs : List Char) : List Char :=
  (cs.map (fun c => if c == 'Z' then "+00:00".data else [c])).flatten

/-- Exactly two decimal digits. -/
def twoDigits : List Char → Option (Nat × List Char)
  | c1 :: c2 :: rest =>
    if c1.isDigit && c2.isDigit then some (digitVal c1 * 10 + digitVal c2, rest)
    else none
  | _ => none

/-- UTC-offset suffix `±HH:MM[:SS]` of an ISO string, in seconds. -/
def isoOffset : List Char → Option Int
  | c :: rest =>
    if c == '+' || c == '-' then
      match twoDigits rest with
      | some (hh, ':' :: rest2) =>
        match twoDigits rest2 with
        | some (mm, rest3) =>
          let ss : Option Nat :=
            match rest3 with
            | ':' :: rest4 =>
              match twoDigits rest4 with
              | some (s, []) => if s ≤ 59 then some s else none
              | _ => none
            | [] => some 0
            | _ => none
          match ss with
          | some s =>
            if mm ≤ 59 && hh * 3600 + mm * 60 + s < 86400 then
              some ((if c == '-' then -1 else 1) * (hh * 3600 + mm * 60 + s))
            else none
          | none => none
        | none => none
      | _ => none
    else none
  | [] => none

/-- Model of `datetime.fromisoformat` for the strings this pipeline
produces (`datetime.isoformat()` output: `YYYY-MM-DD`, optionally a
separator character and `HH:MM[:SS]`, optionally a `±HH:MM[:SS]`
offset).  Returns the wall-clock fields and the offset when one is
present (`none` models a naive result); failure models `ValueError`. -/
def fromisoformat (cs : List Char) : Option (NaiveDT × Option Int) :=
  match cs with
  | y1 :: y2 :: y3 :: y4 :: '-' :: o1 :: o2 :: '-' :: d1 :: d2 :: rest =>
    if y1.isDigit && y2.isDigit && y3.isDigit && y4.isDigit
        && o1.isDigit && o2.isDigit && d1.isDigit && d2.isDigit then
      let y := digitVal y1 * 1000 + digitVal y2 * 100 + digitVal y3 * 10 + digitVal y4
      let mo := digitVal o1 * 10 + digitVal o2
      let d := digitVal d1 * 10 + digitVal d2
      match rest with
      | [] => (mkNaive y mo d 0 0 0).map (fun ndt => (ndt, none))
      | _sep :: timePart =>
        match twoDigits timePart with
        | some (hh, ':' :: rest2) =>
          match twoDigits rest2 with
          | some (mm, rest3) =>
            let secPart : Option (Nat × List Char) :=
              match rest3 with
              | ':' :: rest4 =>
                match twoDigits rest4 with
                | some (s, rest5) => some (s, rest5)
                | none => none
              | _ => some (0, rest3)
            match secPart with
            | some (ss, rest6) =>
              match rest6 with
              | [] => (mkNaive y mo d hh mm ss).map (fun ndt => (ndt, none))
              | _ =>
                match isoOffset rest6 with
                | some off => (mkNaive y mo d hh mm ss).map (fun ndt => (ndt, some off))
                | none => none
            | none => none
          | none => none
        | _ => none
    else none
  | _ => none

/-- The `date_range` dictionary of `get_statistics()`. -/
structure DateRange where
  earliest : Option String
  latest : Option String
  deriving Repr, DecidableEq

/-- Embedding of `construct_date_query` (`src/gmailextract.py` lines
176–226).  Notes kept from the source: the `query_end_time` buffer is
computed but not used in any returned query (`end_str` is only logged);
the backward branch tests `cutoff_date < latest_existing` and formats the
`before:` bound from `latest_existing`, storing it in a variable the
source names `earliest_str`; the forward branch adds a two-hour buffer to
`latest_existing` and emits only an `after:` bound.  `current_time` is
passed explicitly (`datetime.now(timezone.utc)` in the source).  Failures
of `fromisoformat` (`ValueError`) and naive/aware comparison
(`TypeError`) propagate as `Except.error`. -/
def constructDateQuery (cutoffDate : AwareDT) (currentTime : AwareDT)
    (dateRange : Option DateRange) : Except String String :=
  let baseQuery := "category:primary OR category:updates"
  let _queryEndTime := addDaysAware 1 currentTime
  let latestOpt : Option String :=
    match dateRange with
    | none => none
    | some r =>
      match r.latest with
      | some s => if s.data.isEmpty then none else some s
      | none => none
  match latestOpt with
  | some latestStr =>
    match fromisoformat (replaceZ latestStr.data) with
    | none => .error ("ValueError: Invalid isoformat string: " ++ latestStr)
    | some (ndt, tzOpt) =>
      match tzOpt with
      | none => .error "TypeError: cannot compare offset-naive and offset-aware datetimes"
      | some tz =>
        let latestExisting : AwareDT := ⟨ndt, tz⟩
        if awareLt cutoffDate latestExisting then
          let cutoffStr := strftimeSlash cutoffDate
          let earliestStr := strftimeSlash latestExisting
          .ok (baseQuery ++ " after:" ++ cutoffStr ++ " before:" ++ earliestStr)
        else
          let queryStartTime := addHoursAware 2 latestExisting
          let latestStr2 := strftimeDash queryStartTime
          .ok (baseQuery ++ " after:" ++ latestStr2)
  | none =>
    let cutoffStr := strftimeDash cutoffDate
    .ok (baseQuery ++ " after:" ++ cutoffStr)

/-- The configured cutoff instant `CUTOFF_DATE = datetime(2024, 11, 14,
tzinfo=timezone.utc)` (`src/gmailextract.py` line 59). -/
def cutoffDateConst : AwareDT := ⟨⟨2024, 11, 14, 0, 0, 0⟩, 0⟩

/-- Concrete clock instant used to evaluate `construct_date_query`. -/
def nowConst : AwareDT := ⟨⟨2025, 1, 10, 12, 0, 0⟩, 0⟩

/-- Ledger date range whose earliest date (2024-11-20) is after the
cutoff (2024-11-14): per the specification the next fetch should query
the gap up to the earliest date. -/
def backfillRange : DateRange :=
  { earliest := some "2024-11-20T09:00:00+00:00",
    latest := some "2024-12-25T12:00:00+00:00" }

/-! ## `process_message` (`src/gmailextract.py` lines 428–509)

A raw Gmail message is modelled with the fields `process_message` reads
from the `users().messages().get` response.  The body-decoding pipeline
(`decode_and_extract_text`: base64, HTML stripping via BeautifulSoup,
`EmailCleaner`) is an external text transformation with no effect on
control flow — `decode_and_extract_text` always returns a three-key
dictionary, which is always truthy — so it is passed in as a function
producing the `{clean_text, urls, length}` triple. -/

/-- One entry of `payload['parts']`: its `mimeType` and
`part['body'].get('data', '')` (the Gmail API always supplies the `body`
object; `data` may be missing). -/
structure MsgPart where
  mimeType : Option String
  bodyData : Option String
  deriving Repr, DecidableEq

/-- A raw message as returned by `users().messages().get(format='full')`,
restricted to the fields `process_message` reads. -/
structure RawMsg where
  id : String
  threadId : Option String
  internalDate : Option String
  headers : List (String × String)
  parts : List MsgPart
  bodyData : Option String
  snippet : Option String
  labelIds : Option (List String)
  deriving Repr, DecidableEq

/-- Python `next((h['value'] for h in headers if h['name'] == name), None)`. -/
def findHeader (headers : List (String × String)) (name : String) : Option String :=
  (headers.find? (fun h => h.1 == name)).map (·.2)

/-- The structured body value `decoded_body` can hold: the initial `""`
or the `{clean_text, urls, length}` dictionary built by
`EmailCleaner.structure_email_body`. -/
inductive BodyVal where
  | emptyStr
  | structured (cleanText : String) (urls : List String) (length : Nat)
  deriving Repr, DecidableEq

/-- Decoder output triple packaged as a `BodyVal`. -/
def mkStructured : String × List String × Nat → BodyVal
  | (t, us, n) => .structured t us n

/-- The result dictionary `process_message` builds on success. -/
structure OutEmail where
  id : String
  threadId : Option String
  internalDate : Option String
  date : Option String
  parsedDate : Option String
  sender : Option String
  subject : Option String
  body : BodyVal
  status : String
  snippet : Option String
  labelIds : Option (List String)
  deriving Repr, DecidableEq

/-- Return value of `process_message`: Python `None` (`skipped`), the
`{'status': 'cutoff', 'date': ...}` dictionary, or the full result
dictionary. -/
inductive ProcResult where
  | skipped
  | cutoff (d : AwareDT)
  | success (e : OutEmail)
  deriving Repr, DecidableEq

/-- Whether a `process_message` result is the cutoff record. -/
def ProcResult.isCutoff : ProcResult → Bool
  | .cutoff _ => true
  | _ => false

/-- Whether a `process_message` result is a success record. -/
def ProcResult.isSuccess : ProcResult → Bool
  | .success _ => true
  | _ => false

/-- The `msg_date` computed by `process_message`: parse the `Date` header
when present; `ValueError` (and any other parse exception) leaves it
`None` and processing continues. -/
def msgDateOf (m : RawMsg) : Option AwareDT :=
  match findHeader m.headers "Date" with
  | some ds =>
    match parseDate ds with
    | .ok dt => some dt
    | .error _ => none
  | none => none

/-- Whether `pat` is a prefix of the input (character lists). -/
def startsWithCL : List Char → List Char → Bool
  | [], _ => true
  | _ :: _, [] => false
  | p :: ps, c :: cs => p == c && startsWithCL ps cs

/-- Python substring containment `needle in haystack`. -/
def containsSub (needle : List Char) : List Char → Bool
  | [] => needle.isEmpty
  | c :: cs => startsWithCL needle (c :: cs) || containsSub needle cs

/-- The sender filter `any(email in (sender or '') for email in
FILTER_SENDERS)`: substring containment of a configured address in the
`From` header. -/
def senderMatches (filterSenders : List String) (m : RawMsg) : Bool :=
  filterSenders.any
    (fun f => containsSub f.data ((findHeader m.headers "From").getD "").data)

/-- Body selection over `payload['parts']`: the first part whose MIME
type is `text/plain` or `text/html` and whose `data` is truthy is decoded
and the loop breaks (the decoded three-key dictionary is always truthy). -/
def firstPartBody (decodeFn : String → String × List String × Nat) :
    List MsgPart → BodyVal
  | [] => .emptyStr
  | p :: ps =>
    if p.mimeType == some "text/plain" || p.mimeType == some "text/html" then
      if (p.bodyData.getD "").data.isEmpty then firstPartBody decodeFn ps
      else mkStructured (decodeFn (p.bodyData.getD ""))
    else firstPartBody decodeFn ps

/-- Body extraction of `process_message`: use the top-level
`payload['body']['data']` when there are no parts and it is truthy,
otherwise scan the parts. -/
def extractBody (decodeFn : String → String × List String × Nat)
    (m : RawMsg) : BodyVal :=
  if m.parts.isEmpty && !(m.bodyData.getD "").data.isEmpty then
    mkStructured (decodeFn (m.bodyData.getD ""))
  else firstPartBody decodeFn m.parts

/-- The success dictionary built at the end of `process_message`
(`snippet` and `labelIds` are included only if present on the raw
message, hence the `Option` passthrough). -/
def buildResult (decodeFn : String → String × List String × Nat)
    (m : RawMsg) : OutEmail :=
  { id := m.id
    threadId := m.threadId
    internalDate := m.internalDate
    date := findHeader m.headers "Date"
    parsedDate := (msgDateOf m).map isoformat
    sender := findHeader m.headers "From"
    subject := findHeader m.headers "Subject"
    body := extractBody decodeFn m
    status := "success"
    snippet := m.snippet
    labelIds := m.labelIds }

/-- Embedding of `process_message` (`src/gmailextract.py` lines
428–509): parse the `Date` header (failure is non-fatal); return the
cutoff record early when the parsed date is before the cutoff; drop the
message (`None`) when no configured sender substring occurs in the
`From` header; otherwise return the success dictionary. -/
def processMessage (filterSenders : List String) (cutoffDate : AwareDT)
    (decodeFn : String → String × List String × Nat) (m : RawMsg) : ProcResult :=
  match msgDateOf m with
  | some dt =>
    if awareLt dt cutoffDate then .cutoff dt
    else if !senderMatches filterSenders m then .skipped
    else .success (buildResult decodeFn m)
  | none =>
    if !senderMatches filterSenders m then .skipped
    else .success (buildResult decodeFn m)

/-! ## The ingestion loop of `main` (`src/gmailextract.py` lines 511–695)

The loop state is the set of tracked variables of `main`; the remote
fetcher is modelled as the sequence of pages it returns, consumed in
order by `list_messages`. -/

/-- `MAX_OLD_MESSAGES = 5` (`src/gmailextract.py` line 533). -/
def MAX_OLD_MESSAGES : Nat := 5

/-- Mutable state of the per-run loop in `main`. -/
structure RunState where
  processedIds : List String
  filteredEmails : List OutEmail
  totalProcessed : Nat
  consecutiveOld : Nat
  cutoffReached : Bool
  deriving Repr, DecidableEq

/-- Initial state: `processed_ids = email_handler.existing_ids.copy()`,
everything else empty/zero/false. -/
def initState (ledger : List Email) : RunState :=
  { processedIds := existingIds ledger
    filteredEmails := []
    totalProcessed := 0
    consecutiveOld := 0
    cutoffReached := false }

/-- Ids of accumulated result dictionaries. -/
def outIds (es : List OutEmail) : List String :=
  es.map (·.id)

/-- The known-ids discipline of a sequence of accepted emails relative
to a base id set: each accepted id is fresh with respect to the base set
extended with all earlier accepted ids. -/
def TrackedFrom (base : List String) : List OutEmail → Prop
  | [] => True
  | e :: es => e.id ∉ base ∧ TrackedFrom (base ++ [e.id]) es

/-- One iteration of the `for message in messages` loop
(`src/gmailextract.py` lines 595–656).  Returns the next state and
whether the iteration executed `break` (which happens exactly when the
consecutive-old counter reaches `MAX_OLD_MESSAGES`).  Duplicates are
skipped before `process_message` is called; a `None` result is skipped; a
cutoff record increments the counter without touching `processed_ids`; a
success is appended, its id is added to `processed_ids`, and the counter
resets. -/
def stepMessage (filterSenders : List String) (cutoffDate : AwareDT)
    (decodeFn : String → String × List String × Nat)
    (st : RunState) (m : RawMsg) : RunState × Bool :=
  if st.processedIds.contains m.id then (st, false)
  else
    match processMessage filterSenders cutoffDate decodeFn m with
    | .skipped => (st, false)
    | .cutoff _ =>
      let c := st.consecutiveOld + 1
      if MAX_OLD_MESSAGES ≤ c then
        ({ st with consecutiveOld := c, cutoffReached := true }, true)
      else ({ st with consecutiveOld := c }, false)
    | .success e =>
      ({ st with
          consecutiveOld := 0
          filteredEmails := st.filteredEmails ++ [e]
          processedIds := st.processedIds ++ [m.id]
          totalProcessed := st.totalProcessed + 1 }, false)

/-- The `for message in messages` loop with its `break`. -/
def runPageMsgs (filterSenders : List String) (cutoffDate : AwareDT)
    (decodeFn : String → String × List String × Nat) :
    RunState → List RawMsg → RunState
  | st, [] => st
  | st, m :: ms =>
    let (st2, brk) := stepMessage filterSenders cutoffDate decodeFn st m
    if brk then st2
    else runPageMsgs filterSenders cutoffDate decodeFn st2 ms

/-- One page of a `list_messages` response. -/
structure Page where
  messages : List RawMsg
  nextPageToken : Option String
  deriving Repr, DecidableEq

/-- The `while not cutoff_reached` paging loop (`src/gmailextract.py`
lines 585–680) over the sequence of pages the provider returns.  The
result pairs the final state with the number of pages fetched
(`list_messages` calls): the loop breaks on an empty page, after a page
in which the cutoff break fired, and when no `nextPageToken` is
present. -/
def runPages (filterSenders : List String) (cutoffDate : AwareDT)
    (decodeFn : String → String × List String × Nat) :
    RunState → List Page → RunState × Nat
  | st, [] => (st, 0)
  | st, p :: rest =>
    if st.cutoffReached then (st, 0)
    else if p.messages.isEmpty then (st, 1)
    else
      let st2 := runPageMsgs filterSenders cutoffDate decodeFn st p.messages
      if st2.cutoffReached then (st2, 1)
      else
        match p.nextPageToken with
        | none => (st2, 1)
        | some _ =>
          let (fin, n) := runPages filterSenders cutoffDate decodeFn st2 rest
          (fin, n + 1)

/-- All messages observed across the run's pages, in order. -/
def allMessages (pages : List Page) : List RawMsg :=
  (pages.map Page.messages).flatten

/-- Projection of a result dictionary to a ledger entry: the keys the
ledger code reads (`parsedDate` is always present on a success record,
possibly with value `None`). -/
def toLedgerEmail (e : OutEmail) : Email :=
  { id := e.id
    parsedDate := match e.parsedDate with
      | some s => .str s
      | none => .null
    sender := e.sender.getD ""
    subject := e.subject.getD "" }

/-- The merged ledger contents after a run (`src/gmailextract.py` lines
686–695): when the accumulated batch is nonempty it is merged into the
ledger via `process_new_emails`; otherwise the ledger is untouched.  The
file written on a successful save is a permutation (sort) of this list,
so id membership is the same. -/
def ledgerAfterRun (filterSenders : List String) (cutoffDate : AwareDT)
    (decodeFn : String → String × List String × Nat)
    (ledger : List Email) (pages : List Page) : List Email :=
  let fin := (runPages filterSenders cutoffDate decodeFn (initState ledger) pages).1
  if fin.filteredEmails.isEmpty then ledger
  else mergeEmails ledger (fin.filteredEmails.map toLedgerEmail)

/-! ## The Store Synchronizer (`src/mongo_loader.py`, `src/sync_mongodb.py`)

The document store is modelled by the list of ids it holds, together
with the contract of `pymongo` `insert_many(..., ordered=False)` against
the unique index on `id` (spec §6: partial-failure-tolerant insertion):
every document whose id is not yet present is inserted; when at least
one conflicts, a `BulkWriteError` (an `OperationFailure` whose message
contains "duplicate key error") is raised carrying
`details['nInserted']` and `details['writeErrors']`. -/

/-- The statistics dictionary threaded through `load_data` and
`_process_batch`. -/
structure LoadStats where
  totalProcessed : Nat
  successful : Nat
  failed : Nat
  duplicates : Nat
  errors : List String
  deriving Repr, DecidableEq

/-- Fresh statistics at the start of `load_data`. -/
def emptyStats : LoadStats :=
  { totalProcessed := 0, successful := 0, failed := 0, duplicates := 0, errors := [] }

/-- Outcome of one `insert_many(batch, ordered=False)` call. -/
inductive InsertManyResult where
  | ok (inserted : Nat)
  | bulkDupError (nInserted : Nat)
  | otherError (msg : String)
  deriving Repr, DecidableEq

/-- Unordered insertion of a batch against the unique `id` index,
modelled from the document-store contract (spec §6): documents are
attempted in order; a document whose id is already in the store (or was
inserted earlier in the same batch) conflicts, the others are inserted.
Returns (inserted count, conflict count, resulting store ids). -/
def insertManyGo (cur : List String) : List Email → Nat × Nat × List String
  | [] => (0, 0, cur)
  | e :: es =>
    if cur.contains e.id then
      let (i, d, s) := insertManyGo cur es
      (i, d + 1, s)
    else
      let (i, d, s) := insertManyGo (cur ++ [e.id]) es
      (i + 1, d, s)

/-- The `insert_many` call of `_process_batch` and the store state after
it: success when nothing conflicts, otherwise the duplicate-key
`BulkWriteError`.  (In this model the store raises no fault other than
duplicate keys — the connection-failure path of the driver is outside
the store state.) -/
def insertMany (storeIds : List String) (batch : List Email) :
    InsertManyResult × List String :=
  let (ins, dup, ids) := insertManyGo storeIds batch
  if dup == 0 then (.ok ins, ids) else (.bulkDupError ins, ids)

/-- Independent characterisation of the ids a batch adds to the store:
each id not present in the store (nor added by an earlier batch entry)
in order. -/
def dedupNew (storeIds : List String) : List Email → List String
  | [] => []
  | e :: es =>
    if storeIds.contains e.id then dedupNew storeIds es
    else e.id :: dedupNew (storeIds ++ [e.id]) es

/-- Embedding of `MongoDBLoader._process_batch` (`src/mongo_loader.py`
lines 216–250): on success add `len(result.inserted_ids)` to
`successful`; on an `OperationFailure` whose message contains "duplicate
key error" (always carrying `details` for a `BulkWriteError`) add
`nInserted` to `successful` and `len(batch) - nInserted` to
`duplicates`; on any other fault record the error and add `len(batch)`
to `failed`.  No branch re-raises, so the function is total.  Returns
the updated statistics and store ids. -/
def processBatch (storeIds : List String) (batch : List Email)
    (stats : LoadStats) : LoadStats × List String :=
  match insertMany storeIds batch with
  | (.ok n, newIds) =>
    ({ stats with successful := stats.successful + n }, newIds)
  | (.bulkDupError nIns, newIds) =>
    ({ stats with
        successful := stats.successful + nIns
        duplicates := stats.duplicates + (batch.length - nIns) }, newIds)
  | (.otherError msg, newIds) =>
    ({ stats with
        errors := stats.errors ++ [msg]
        failed := stats.failed + batch.length }, newIds)

/-- Split a list into chunks of `n` (the batching of `load_data`: flush
whenever the accumulated batch reaches `batch_size`, then flush the
remainder). -/
def chunksOfAux : Nat → Nat → List Email → List (List Email)
  | 0, _, l => [l]
  | _ + 1, _, [] => []
  | fuel + 1, n, l => l.take n :: chunksOfAux fuel n (l.drop n)

/-- Chunks of size `n` (last chunk possibly shorter). -/
def chunksOf (n : Nat) (l : List Email) : List (List Email) :=
  chunksOfAux (l.length + 1) n l

/-- Embedding of `MongoDBLoader.load_data` (`src/mongo_loader.py` lines
86–174) over the store model: process the emails in batches of
`batchSize`, threading the statistics and the store state
(`total_processed` is incremented once per email; the `_imported_at`
metadata does not affect ids). -/
def loadData (storeIds : List String) (emails : List Email)
    (batchSize : Nat) : LoadStats × List String :=
  (chunksOf batchSize emails).foldl
    (fun acc chunk =>
      processBatch acc.2 chunk
        { acc.1 with totalProcessed := acc.1.totalProcessed + chunk.length })
    (emptyStats, storeIds)

/-- The missing-document selection of `sync_mongodb`
(`src/sync_mongodb.py` lines 28–39): `missing_ids = json_ids -
existing_ids` and the json entries are filtered to those ids, i.e. to
the entries whose id the store lacks. -/
def syncMissingDocs (jsonData : List Email) (storeIds : List String) : List Email :=
  jsonData.filter (fun e => !storeIds.contains e.id)

/-! ## Concrete fixtures used by the claim evaluations -/

/-- A stored email whose `parsedDate` key is present with value `None`
(exactly what `process_message` produces when date parsing fails). -/
def noDateEmail : Email :=
  { id := "nodate-1", parsedDate := .null,
    sender := "carol@newsletter.example", subject := "no parsed date" }

/-- A stored email with a parsed date. -/
def datedEmail : Email :=
  { id := "dated-1", parsedDate := .str "2024-11-20T10:00:00+00:00",
    sender := "dave@newsletter.example", subject := "dated" }

/-- A stored email whose `parsedDate` key is absent. -/
def absentDateEmail : Email :=
  { id := "absent-1", parsedDate := .absent,
    sender := "erin@newsletter.example", subject := "absent key" }

/-- A concrete sender filter configuration. -/
def filterSendersConst : List String := ["@newsletter.example"]

/-- A concrete body decoder standing in for `decode_and_extract_text`. -/
def decodeConst : String → String × List String × Nat :=
  fun s => (s, [], s.length)

/-- A raw message whose `From` header matches no configured sender. -/
def rejectedMsg : RawMsg :=
  { id := "rejected-1", threadId := none, internalDate := none,
    headers := [("From", "stranger@gmail.com"), ("Subject", "unrelated")],
    parts := [], bodyData := none, snippet := none, labelIds := none }

/-- A raw message dated 2024-01-04, well before the cutoff
(2024-11-14), with index `i` in its id. -/
def oldMsg (i : Nat) : RawMsg :=
  { id := "old-" ++ natToStr i, threadId := none, internalDate := none,
    headers := [("From", "feed@newsletter.example"),
                ("Date", "Mon, 4 Jan 2024 09:00:00 -0500")],
    parts := [], bodyData := none, snippet := none, labelIds := none }

/-- A raw message dated 2024-11-20, after the cutoff, with a matching
sender. -/
def freshMsg : RawMsg :=
  { id := "fresh-1", threadId := some "t1", internalDate := some "1732089600000",
    headers := [("From", "feed@newsletter.example"),
                ("Date", "Wed, 20 Nov 2024 08:00:00 +0000"),
                ("Subject", "news")],
    parts := [], bodyData := some "hello world", snippet := none, labelIds := none }

/-! ## Theorems

### Facts about merge used by the claims -/

theorem mem_existingIds {e : Email} {es : List Email}
    (h : e ∈ es) : e.id ∈ existingIds es :=
  List.mem_map_of_mem (·.id) h

theorem existingIds_mergeEmails (ex b : List Email) :
    existingIds (mergeEmails ex b) =
      existingIds ex ++ existingIds (b.filter
        (fun e => !(existingIds ex).contains e.id)) := by
  simp [mergeEmails, existingIds]

theorem merge_second_filter_empty (ex b : List Email) :
    b.filter
      (fun e => !(existingIds (mergeEmails ex b)).contains e.id) = [] := by
  rw [List.filter_eq_nil_iff]
  intro e he
  simp only [Bool.not_eq_true', Bool.not_eq_false]
  rw [List.contains_iff_exists_mem_beq]
  by_cases hid : e.id ∈ existingIds ex
  · exact ⟨e.id, by simpa [mergeEmails, existingIds] using Or.inl hid, by simp⟩
  · refine ⟨e.id, ?_, by simp⟩
    have hef : e ∈ b.filter (fun x => !(existingIds ex).contains x.id) := by
      rw [List.mem_filter]
      exact ⟨he, by simpa using hid⟩
    have : e.id ∈ existingIds (b.filter (fun x => !(existingIds ex).contains x.id)) :=
      mem_existingIds hef
    rw [existingIds_mergeEmails]
    exact List.mem_append.mpr (Or.inr this)

/-- Claim C1 — Idempotent merge.  Merging the same batch a second time
against the ledger state produced by the first merge (the state a fresh
handler loads back from the saved file) returns a list equal to the result
of merging once; a second merge against the unchanged in-memory handler
(whose `existing_emails` is not mutated by `merge_emails`) is literally
the same call and returns the same list.  In particular the id-set and the
size of the ledger are unchanged by the repeated merge. -/
theorem merge_idempotent (ex b : List Email) :
    mergeEmails (mergeEmails ex b) b = mergeEmails ex b ∧
    existingIds (mergeEmails (mergeEmails ex b) b) = existingIds (mergeEmails ex b) ∧
    (mergeEmails (mergeEmails ex b) b).length = (mergeEmails ex b).length := by
  have h : mergeEmails (mergeEmails ex b) b = mergeEmails ex b := by
    conv_lhs => rw [mergeEmails, merge_second_filter_empty]
    simp
  exact ⟨h, by rw [h], by rw [h]⟩


/-- Claim C9 — merge does not deduplicate within its input batch: for a
batch holding two entries with the same id not present in the ledger,
`merge_emails` returns both entries, so the returned sequence carries the
id twice and violates id uniqueness. -/
theorem merge_keeps_batch_duplicates :
    dupEmailA.id = dupEmailB.id ∧
    mergeEmails [] [dupEmailA, dupEmailB] = [dupEmailA, dupEmailB] ∧
    (existingIds (mergeEmails [] [dupEmailA, dupEmailB])).count "msg-001" = 2 := by
  refine ⟨rfl, by simp [mergeEmails, existingIds, dupEmailA, dupEmailB], ?_⟩
  simp [mergeEmails, existingIds, dupEmailA, dupEmailB, List.count_cons]


/-! ### The run-level invariant of the ingestion loop -/

theorem outIds_nil : outIds [] = [] := rfl

theorem outIds_cons (e : OutEmail) (es : List OutEmail) :
    outIds (e :: es) = e.id :: outIds es := rfl

theorem outIds_append (a b : List OutEmail) :
    outIds (a ++ b) = outIds a ++ outIds b := by
  simp [outIds]

theorem allMessages_cons (p : Page) (ps : List Page) :
    allMessages (p :: ps) = p.messages ++ allMessages ps := by
  simp [allMessages]

theorem processMessage_success_id {fs : List String} {cutoff : AwareDT}
    {dec : String → String × List String × Nat} {m : RawMsg} {e : OutEmail}
    (h : processMessage fs cutoff dec m = .success e) : e.id = m.id := by
  unfold processMessage at h
  cases hmd : msgDateOf m <;> simp only [hmd] at h
  case none =>
    by_cases hs : (!senderMatches fs m) = true
    · rw [if_pos hs] at h
      cases h
    · rw [if_neg hs] at h
      cases h
      rfl
  case some dt =>
    by_cases hl : awareLt dt cutoff = true
    · rw [if_pos hl] at h
      cases h
    · rw [if_neg hl] at h
      by_cases hs : (!senderMatches fs m) = true
      · rw [if_pos hs] at h
        cases h
      · rw [if_neg hs] at h
        cases h
        rfl

theorem isCutoff_exists {r : ProcResult} (h : r.isCutoff = true) :
    ∃ d, r = .cutoff d := by
  cases r <;> simp [ProcResult.isCutoff] at h ⊢

theorem trackedFrom_append {base : List String} {a b : List OutEmail}
    (ha : TrackedFrom base a) (hb : TrackedFrom (base ++ outIds a) b) :
    TrackedFrom base (a ++ b) := by
  induction a generalizing base with
  | nil => simpa [outIds] using hb
  | cons e es ih =>
    obtain ⟨h1, h2⟩ := ha
    refine ⟨h1, ih h2 ?_⟩
    rw [outIds_cons] at hb
    simpa [List.append_assoc] using hb

theorem trackedFrom_nodup {base : List String} {a : List OutEmail}
    (h : TrackedFrom base a) : (outIds a).Nodup ∧ ∀ i ∈ outIds a, i ∉ base := by
  induction a generalizing base with
  | nil => simp [outIds]
  | cons e es ih =>
    obtain ⟨h1, h2⟩ := h
    obtain ⟨hn, hf⟩ := ih h2
    have hne : e.id ∉ outIds es := fun hm =>
      (hf _ hm) (List.mem_append.mpr (Or.inr (List.mem_singleton.mpr rfl)))
    rw [outIds_cons]
    refine ⟨List.nodup_cons.mpr ⟨hne, hn⟩, ?_⟩
    intro i hi
    rcases List.mem_cons.mp hi with hh | hh
    · exact hh ▸ h1
    · exact fun hib => (hf i hh) (List.mem_append.mpr (Or.inl hib))

theorem stepMessage_spec (fs : List String) (cutoff : AwareDT)
    (dec : String → String × List String × Nat) (st : RunState) (m : RawMsg) :
    ∃ acc : List OutEmail,
      (stepMessage fs cutoff dec st m).1.filteredEmails = st.filteredEmails ++ acc ∧
      (stepMessage fs cutoff dec st m).1.processedIds = st.processedIds ++ outIds acc ∧
      TrackedFrom st.processedIds acc ∧
      ∀ e ∈ acc, processMessage fs cutoff dec m = .success e := by
  by_cases hdup : m.id ∈ st.processedIds
  · refine ⟨[], ?_, ?_, trivial, by simp⟩ <;> simp [stepMessage, hdup, outIds]
  · cases hp : processMessage fs cutoff dec m with
    | skipped =>
      refine ⟨[], ?_, ?_, trivial, by simp⟩ <;> simp [stepMessage, hdup, hp, outIds]
    | cutoff d =>
      have hstep : stepMessage fs cutoff dec st m =
          (if MAX_OLD_MESSAGES ≤ st.consecutiveOld + 1 then
            ({ st with consecutiveOld := st.consecutiveOld + 1, cutoffReached := true }, true)
           else ({ st with consecutiveOld := st.consecutiveOld + 1 }, false)) := by
        simp [stepMessage, hdup, hp]
      by_cases hmax : MAX_OLD_MESSAGES ≤ st.consecutiveOld + 1
      · rw [if_pos hmax] at hstep
        exact ⟨[], by simp [hstep], by simp [hstep, outIds], trivial, by simp⟩
      · rw [if_neg hmax] at hstep
        exact ⟨[], by simp [hstep], by simp [hstep, outIds], trivial, by simp⟩
    | success e =>
      refine ⟨[e], ?_, ?_, ⟨?_, trivial⟩, by simp [hp]⟩
      · simp [stepMessage, hdup, hp]
      · simp [stepMessage, hdup, hp, outIds, processMessage_success_id hp]
      · rw [processMessage_success_id hp]
        exact hdup

theorem runPageMsgs_cons (fs : List String) (cutoff : AwareDT)
    (dec : String → String × List String × Nat) (st : RunState)
    (m : RawMsg) (ms : List RawMsg) :
    runPageMsgs fs cutoff dec st (m :: ms) =
      (if (stepMessage fs cutoff dec st m).2 then (stepMessage fs cutoff dec st m).1
       else runPageMsgs fs cutoff dec (stepMessage fs cutoff dec st m).1 ms) := by
  conv_lhs => unfold runPageMsgs

theorem runPageMsgs_spec (fs : List String) (cutoff : AwareDT)
    (dec : String → String × List String × Nat) (ms : List RawMsg) :
    ∀ st : RunState,
      ∃ acc : List OutEmail,
        (runPageMsgs fs cutoff dec st ms).filteredEmails = st.filteredEmails ++ acc ∧
        (runPageMsgs fs cutoff dec st ms).processedIds = st.processedIds ++ outIds acc ∧
        TrackedFrom st.processedIds acc ∧
        ∀ e ∈ acc, ∃ m ∈ ms, processMessage fs cutoff dec m = .success e := by
  induction ms with
  | nil =>
    intro st
    exact ⟨[], by simp [runPageMsgs], by simp [runPageMsgs, outIds], trivial, by simp⟩
  | cons m ms ih =>
    intro st
    obtain ⟨a1, hf1, hp1, ht1, ho1⟩ := stepMessage_spec fs cutoff dec st m
    rw [runPageMsgs_cons]
    by_cases hbrk : (stepMessage fs cutoff dec st m).2 = true
    · rw [if_pos hbrk]
      exact ⟨a1, hf1, hp1, ht1, fun e he => ⟨m, List.mem_cons_self m ms, ho1 e he⟩⟩
    · rw [if_neg hbrk]
      obtain ⟨a2, hf2, hp2, ht2, ho2⟩ := ih (stepMessage fs cutoff dec st m).1
      refine ⟨a1 ++ a2, ?_, ?_, ?_, ?_⟩
      · rw [hf2, hf1, List.append_assoc]
      · rw [hp2, hp1, outIds_append, List.append_assoc]
      · refine trackedFrom_append ht1 ?_
        rw [← hp1]
        exact ht2
      · intro e he
        rcases List.mem_append.mp he with hh | hh
        · exact ⟨m, List.mem_cons_self m ms, ho1 e hh⟩
        · obtain ⟨m2, hm2, hs⟩ := ho2 e hh
          exact ⟨m2, List.mem_cons_of_mem m hm2, hs⟩

theorem runPages_cons (fs : List String) (cutoff : AwareDT)
    (dec : String → String × List String × Nat) (st : RunState)
    (p : Page) (rest : List Page) :
    runPages fs cutoff dec st (p :: rest) =
      (if st.cutoffReached then (st, 0)
       else if p.messages.isEmpty then (st, 1)
       else if (runPageMsgs fs cutoff dec st p.messages).cutoffReached then
         (runPageMsgs fs cutoff dec st p.messages, 1)
       else
         match p.nextPageToken with
         | none => (runPageMsgs fs cutoff dec st p.messages, 1)
         | some _ =>
           ((runPages fs cutoff dec (runPageMsgs fs cutoff dec st p.messages) rest).1,
            (runPages fs cutoff dec (runPageMsgs fs cutoff dec st p.messages) rest).2 + 1)) := by
  conv_lhs => unfold runPages

theorem runPages_spec (fs : List String) (cutoff : AwareDT)
    (dec : String → String × List String × Nat) (pages : List Page) :
    ∀ st : RunState,
      ∃ acc : List OutEmail,
        (runPages fs cutoff dec st pages).1.filteredEmails = st.filteredEmails ++ acc ∧
        (runPages fs cutoff dec st pages).1.processedIds = st.processedIds ++ outIds acc ∧
        TrackedFrom st.processedIds acc ∧
        ∀ e ∈ acc, ∃ m ∈ allMessages pages, processMessage fs cutoff dec m = .success e := by
  induction pages with
  | nil =>
    intro st
    exact ⟨[], by simp [runPages], by simp [runPages, outIds], trivial, by simp⟩
  | cons p rest ih =>
    intro st
    rw [runPages_cons]
    by_cases hcr : st.cutoffReached = true
    · rw [if_pos hcr]
      exact ⟨[], by simp, by simp [outIds], trivial, by simp⟩
    rw [if_neg hcr]
    by_cases hem : p.messages.isEmpty = true
    · rw [if_pos hem]
      exact ⟨[], by simp, by simp [outIds], trivial, by simp⟩
    rw [if_neg hem]
    obtain ⟨a1, hf1, hp1, ht1, ho1⟩ := runPageMsgs_spec fs cutoff dec p.messages st
    have hone : ∀ e ∈ a1, ∃ m ∈ allMessages (p :: rest),
        processMessage fs cutoff dec m = .success e := by
      intro e he
      obtain ⟨m, hm, hs⟩ := ho1 e he
      refine ⟨m, ?_, hs⟩
      rw [allMessages_cons]
      exact List.mem_append.mpr (Or.inl hm)
    by_cases hcr2 : (runPageMsgs fs cutoff dec st p.messages).cutoffReached = true
    · rw [if_pos hcr2]
      exact ⟨a1, hf1, hp1, ht1, hone⟩
    rw [if_neg hcr2]
    rcases p.nextPageToken with _ | t
    · exact ⟨a1, hf1, hp1, ht1, hone⟩
    · obtain ⟨a2, hf2, hp2, ht2, ho2⟩ := ih (runPageMsgs fs cutoff dec st p.messages)
      refine ⟨a1 ++ a2, ?_, ?_, ?_, ?_⟩
      · show (runPages fs cutoff dec (runPageMsgs fs cutoff dec st p.messages) rest).1.filteredEmails
          = st.filteredEmails ++ (a1 ++ a2)
        rw [hf2, hf1, List.append_assoc]
      · show (runPages fs cutoff dec (runPageMsgs fs cutoff dec st p.messages) rest).1.processedIds
          = st.processedIds ++ outIds (a1 ++ a2)
        rw [hp2, hp1, outIds_append, List.append_assoc]
      · refine trackedFrom_append ht1 ?_
        rw [← hp1]
        exact ht2
      · intro e he
        rcases List.mem_append.mp he with hh | hh
        · exact hone e hh
        · obtain ⟨m2, hm2, hs⟩ := ho2 e hh
          refine ⟨m2, ?_, hs⟩
          rw [allMessages_cons]
          exact List.mem_append.mpr (Or.inr hm2)


/-- Claim C8 — Date parsing round-trip: for the three representative
header strings, `parse_date` returns a timezone-aware timestamp equal
(as an instant, i.e. UTC-normalized) to the expected one: the
single-digit day is padded, the parenthetical zone name is tolerated,
and `PST` maps to offset `-0800` (−28800 seconds). -/
theorem parse_date_roundtrip :
    parseDate "Mon, 4 Jan 2024 09:00:00 -0500" =
      .ok ⟨⟨2024, 1, 4, 9, 0, 0⟩, -18000⟩ ∧
    awareEq ⟨⟨2024, 1, 4, 9, 0, 0⟩, -18000⟩ ⟨⟨2024, 1, 4, 14, 0, 0⟩, 0⟩ = true ∧
    parseDate "Tue, 14 Nov 2023 10:15:00 +0000 (UTC)" =
      .ok ⟨⟨2023, 11, 14, 10, 15, 0⟩, 0⟩ ∧
    awareEq ⟨⟨2023, 11, 14, 10, 15, 0⟩, 0⟩ ⟨⟨2023, 11, 14, 10, 15, 0⟩, 0⟩ = true ∧
    parseDate "Wed, 1 May 2024 23:59:59 PST" =
      .ok ⟨⟨2024, 5, 1, 23, 59, 59⟩, -28800⟩ ∧
    awareEq ⟨⟨2024, 5, 1, 23, 59, 59⟩, -28800⟩ ⟨⟨2024, 5, 2, 7, 59, 59⟩, 0⟩ = true :=
  ⟨rfl, rfl, rfl, rfl, rfl, rfl⟩

/-- Claim C3 — evaluation at the failing input.  The ledger's earliest
parsed date (2024-11-20) is after the cutoff (2024-11-14), so per the
claim the query should bound the search to the gap
`after:2024/11/14 before:2024/11/20`.  The code instead parses
`date_range['latest']` (2024-12-25) and formats the `before:` bound from
it (storing it in a variable named `earliest_str`), producing
`before:2024/12/25`. -/
theorem backward_query_uses_latest_bound :
    constructDateQuery cutoffDateConst nowConst (some backfillRange) =
      .ok "category:primary OR category:updates after:2024/11/14 before:2024/12/25" ∧
    fromisoformat (replaceZ "2024-11-20T09:00:00+00:00".data) =
      some (⟨2024, 11, 20, 9, 0, 0⟩, some 0) ∧
    strftimeSlash ⟨⟨2024, 11, 20, 9, 0, 0⟩, 0⟩ = "2024/11/20" ∧
    ("before:2024/12/25" == "before:2024/11/20") = false :=
  ⟨rfl, rfl, rfl, rfl⟩

/-- Claim C5 — evaluation at the failing input.  A merged sequence
holding a message whose `parsedDate` is `None` (the value
`process_message` stores when date parsing fails) together with a dated
message makes `sorted` compare `None` with `str`, so
`save_merged_emails` raises `TypeError` instead of succeeding; messages
whose `parsedDate` key is absent do sort last (key `''`). -/
theorem save_raises_on_null_parsed_date :
    saveMergedEmails [noDateEmail, datedEmail] =
      .error "TypeError: comparison not supported between instances of str and NoneType" ∧
    saveMergedEmails [absentDateEmail, datedEmail] = .ok [datedEmail, absentDateEmail] ∧
    saveMergedEmails [noDateEmail] = .ok [noDateEmail] :=
  ⟨rfl, rfl, rfl⟩

/-- Claim C4 — counterexample.  A message rejected by the sender filter
(`process_message` returns `None`) does not add its identifier to the
known-ids set: after a run that observed only `rejectedMsg`, the set is
still empty, contradicting the claim that the set gains the identifier
after a rejection. -/
theorem rejected_id_not_in_known_ids :
    processMessage filterSendersConst cutoffDateConst decodeConst rejectedMsg =
      .skipped ∧
    (runPages filterSendersConst cutoffDateConst decodeConst (initState [])
        [⟨[rejectedMsg], none⟩]).1.processedIds = [] ∧
    ((runPages filterSendersConst cutoffDateConst decodeConst (initState [])
        [⟨[rejectedMsg], none⟩]).1.processedIds.contains rejectedMsg.id) = false :=
  ⟨rfl, rfl, rfl⟩

/-! ### Membership in the merged ledger -/

theorem mem_existingIds_mergeEmails {i : String} {a b : List Email}
    (h : i ∈ existingIds (mergeEmails a b)) :
    i ∈ existingIds a ∨ i ∈ existingIds b := by
  rw [existingIds_mergeEmails] at h
  rcases List.mem_append.mp h with h | h
  · exact Or.inl h
  · right
    simp only [existingIds, List.mem_map] at h ⊢
    obtain ⟨e, he, hid⟩ := h
    exact ⟨e, (List.mem_filter.mp he).1, hid⟩

theorem existingIds_map_toLedger (acc : List OutEmail) :
    existingIds (acc.map toLedgerEmail) = outIds acc := by
  induction acc with
  | nil => rfl
  | cons e es ih =>
    simp only [List.map_cons, existingIds, outIds] at ih ⊢
    rw [ih]
    rfl

/-- Claim C2 — Cutoff correctness: a message whose `Date` header parses
to an instant before the cutoff is classified `cutoff` by
`process_message`, and — provided its id is genuinely new to the ledger
and every occurrence of that id in the fetched pages is this very
message (ids are stable, so two distinct raw messages never share an
id) — its id is absent from the merged ledger after the run: the loop
never appends a cutoff-classified message to the accumulated batch. -/
theorem cutoff_message_never_in_ledger
    (fs : List String) (cutoff : AwareDT)
    (dec : String → String × List String × Nat)
    (ledger : List Email) (pages : List Page) (m : RawMsg)
    (ds : String) (d : AwareDT)
    (hdate : findHeader m.headers "Date" = some ds)
    (hparse : parseDate ds = Except.ok d)
    (hlt : awareLt d cutoff = true)
    (_hobs : m ∈ allMessages pages)
    (huniq : ∀ m2 ∈ allMessages pages, m2.id = m.id → m2 = m)
    (hnew : m.id ∉ existingIds ledger) :
    processMessage fs cutoff dec m = .cutoff d ∧
    m.id ∉ existingIds (ledgerAfterRun fs cutoff dec ledger pages) := by
  have hmd : msgDateOf m = some d := by simp [msgDateOf, hdate, hparse]
  have hcut : processMessage fs cutoff dec m = .cutoff d := by
    simp [processMessage, hmd, hlt]
  refine ⟨hcut, ?_⟩
  obtain ⟨acc, hf, hp, ht, ho⟩ := runPages_spec fs cutoff dec pages (initState ledger)
  have hfe : (runPages fs cutoff dec (initState ledger) pages).1.filteredEmails = acc := by
    simpa [initState] using hf
  intro hmem
  simp only [ledgerAfterRun, hfe] at hmem
  by_cases hne : acc.isEmpty = true
  · rw [if_pos hne] at hmem
    exact hnew hmem
  · rw [if_neg hne] at hmem
    rcases mem_existingIds_mergeEmails hmem with hh | hh
    · exact hnew hh
    · rw [existingIds_map_toLedger] at hh
      simp only [outIds, List.mem_map] at hh
      obtain ⟨e, he, hid⟩ := hh
      obtain ⟨m2, hm2, hs⟩ := ho e he
      have hm2m : m2 = m := huniq m2 hm2 (by rw [← processMessage_success_id hs, hid])
      rw [hm2m, hcut] at hs
      cases hs

/-- Claim C2 witness: the concrete pre-cutoff message `oldMsg 1`,
observed in a single-page run over an empty ledger, is classified
`cutoff` and its id is absent from the ledger after the run. -/
theorem cutoff_message_never_in_ledger_witness :
    processMessage filterSendersConst cutoffDateConst decodeConst (oldMsg 1) =
      .cutoff ⟨⟨2024, 1, 4, 9, 0, 0⟩, -18000⟩ ∧
    (oldMsg 1).id ∉ existingIds (ledgerAfterRun filterSendersConst cutoffDateConst
      decodeConst [] [⟨[oldMsg 1], none⟩]) :=
  cutoff_message_never_in_ledger filterSendersConst cutoffDateConst decodeConst
    [] [⟨[oldMsg 1], none⟩] (oldMsg 1) "Mon, 4 Jan 2024 09:00:00 -0500"
    ⟨⟨2024, 1, 4, 9, 0, 0⟩, -18000⟩ rfl rfl (by decide) (by decide) (by decide)
    (by decide)

/-- Claim C4 (amended) — the known-ids set tracks exactly the accepted
messages: after any run, `processed_ids` is the initial ledger id set
extended by precisely the ids of the accepted batch in acceptance order;
accepted ids are pairwise distinct and none was in the ledger (so
acceptance is at-most-once per id).  Identifiers of rejected messages
(sender filter or cutoff) are not added — see the counterexample. -/
theorem known_ids_track_accepted_only (fs : List String) (cutoff : AwareDT)
    (dec : String → String × List String × Nat) (ledger : List Email)
    (pages : List Page) :
    (runPages fs cutoff dec (initState ledger) pages).1.processedIds =
      existingIds ledger ++
        outIds (runPages fs cutoff dec (initState ledger) pages).1.filteredEmails ∧
    (outIds (runPages fs cutoff dec (initState ledger) pages).1.filteredEmails).Nodup ∧
    ∀ i ∈ outIds (runPages fs cutoff dec (initState ledger) pages).1.filteredEmails,
      i ∉ existingIds ledger := by
  obtain ⟨acc, hf, hp, ht, _⟩ := runPages_spec fs cutoff dec pages (initState ledger)
  have hfe : (runPages fs cutoff dec (initState ledger) pages).1.filteredEmails = acc := by
    simpa [initState] using hf
  have hpe : (runPages fs cutoff dec (initState ledger) pages).1.processedIds =
      existingIds ledger ++ outIds acc := by
    simpa [initState] using hp
  obtain ⟨hnd, hfr⟩ := trackedFrom_nodup ht
  rw [hfe, hpe]
  exact ⟨rfl, hnd, fun i hi => hfr i hi⟩

/-- Claim C6 — Consecutive-cutoff stop: from any loop state with the
consecutive-old counter at zero and the stopping flag clear, a page
whose next five messages (none previously known) are all classified
`cutoff` makes the loop set `cutoff_reached` immediately after the
fifth, break out of the per-page loop (the remaining page suffix `post`
is never processed), break out of the paging loop, and fetch no further
pages (exactly one `list_messages` call regardless of `rest`). -/
theorem consecutive_cutoff_stop
    (fs : List String) (cutoff : AwareDT)
    (dec : String → String × List String × Nat) (st : RunState)
    (m1 m2 m3 m4 m5 : RawMsg) (post : List RawMsg)
    (tok : Option String) (rest : List Page)
    (hrun : st.cutoffReached = false) (hc0 : st.consecutiveOld = 0)
    (hcut1 : (processMessage fs cutoff dec m1).isCutoff = true)
    (hcut2 : (processMessage fs cutoff dec m2).isCutoff = true)
    (hcut3 : (processMessage fs cutoff dec m3).isCutoff = true)
    (hcut4 : (processMessage fs cutoff dec m4).isCutoff = true)
    (hcut5 : (processMessage fs cutoff dec m5).isCutoff = true)
    (hn1 : m1.id ∉ st.processedIds) (hn2 : m2.id ∉ st.processedIds)
    (hn3 : m3.id ∉ st.processedIds) (hn4 : m4.id ∉ st.processedIds)
    (hn5 : m5.id ∉ st.processedIds) :
    runPages fs cutoff dec st (⟨m1 :: m2 :: m3 :: m4 :: m5 :: post, tok⟩ :: rest) =
      ({ st with consecutiveOld := 5, cutoffReached := true }, 1) := by
  obtain ⟨d1, hp1⟩ := isCutoff_exists hcut1
  obtain ⟨d2, hp2⟩ := isCutoff_exists hcut2
  obtain ⟨d3, hp3⟩ := isCutoff_exists hcut3
  obtain ⟨d4, hp4⟩ := isCutoff_exists hcut4
  obtain ⟨d5, hp5⟩ := isCutoff_exists hcut5
  have s1 : stepMessage fs cutoff dec st m1 =
      ({ st with consecutiveOld := 1 }, false) := by
    simp [stepMessage, hn1, hp1, hc0, MAX_OLD_MESSAGES]
  have s2 : stepMessage fs cutoff dec { st with consecutiveOld := 1 } m2 =
      ({ st with consecutiveOld := 2 }, false) := by
    simp [stepMessage, hn2, hp2, MAX_OLD_MESSAGES]
  have s3 : stepMessage fs cutoff dec { st with consecutiveOld := 2 } m3 =
      ({ st with consecutiveOld := 3 }, false) := by
    simp [stepMessage, hn3, hp3, MAX_OLD_MESSAGES]
  have s4 : stepMessage fs cutoff dec { st with consecutiveOld := 3 } m4 =
      ({ st with consecutiveOld := 4 }, false) := by
    simp [stepMessage, hn4, hp4, MAX_OLD_MESSAGES]
  have s5 : stepMessage fs cutoff dec { st with consecutiveOld := 4 } m5 =
      ({ st with consecutiveOld := 5, cutoffReached := true }, true) := by
    simp [stepMessage, hn5, hp5, MAX_OLD_MESSAGES]
  have hpage : runPageMsgs fs cutoff dec st (m1 :: m2 :: m3 :: m4 :: m5 :: post) =
      { st with consecutiveOld := 5, cutoffReached := true } := by
    rw [runPageMsgs_cons, s1]
    simp only [Bool.false_eq_true, if_false]
    rw [runPageMsgs_cons, s2]
    simp only [Bool.false_eq_true, if_false]
    rw [runPageMsgs_cons, s3]
    simp only [Bool.false_eq_true, if_false]
    rw [runPageMsgs_cons, s4]
    simp only [Bool.false_eq_true, if_false]
    rw [runPageMsgs_cons, s5]
    rfl
  rw [runPages_cons]
  simp [hpage, hrun]

/-- Claim C6 witness: five concrete pre-cutoff messages at the head of a
page stop the run with exactly one page fetched, leaving the trailing
acceptable message and the whole second page unprocessed. -/
theorem consecutive_cutoff_stop_witness :
    (processMessage filterSendersConst cutoffDateConst decodeConst (oldMsg 1)).isCutoff
      = true ∧
    runPages filterSendersConst cutoffDateConst decodeConst (initState [])
      [⟨[oldMsg 1, oldMsg 2, oldMsg 3, oldMsg 4, oldMsg 5, freshMsg], some "tok2"⟩,
       ⟨[freshMsg], none⟩] =
      ({ initState [] with consecutiveOld := 5, cutoffReached := true }, 1) :=
  ⟨by decide,
    consecutive_cutoff_stop filterSendersConst cutoffDateConst decodeConst
      (initState []) (oldMsg 1) (oldMsg 2) (oldMsg 3) (oldMsg 4) (oldMsg 5)
      [freshMsg] (some "tok2") [⟨[freshMsg], none⟩] rfl rfl
      (by decide) (by decide) (by decide) (by decide) (by decide)
      (by decide) (by decide) (by decide) (by decide) (by decide)⟩

/-- The sender filter over the empty configured list matches nothing. -/
theorem senderMatches_nil (m : RawMsg) : senderMatches [] m = false := rfl

/-- Claim C10 — empty sender-filter configuration rejects everything:
with the configured list empty (what `load_filter_senders` silently
returns on a missing or malformed configuration file), `process_message`
returns `None` for every message not already returned as `cutoff`, a run
accepts nothing, and the ledger is unchanged after the run. -/
theorem empty_filter_never_accepts (cutoff : AwareDT)
    (dec : String → String × List String × Nat) (m : RawMsg)
    (ledger : List Email) (pages : List Page) :
    (processMessage [] cutoff dec m = .skipped ∨
      (processMessage [] cutoff dec m).isCutoff = true) ∧
    (runPages [] cutoff dec (initState ledger) pages).1.filteredEmails = [] ∧
    ledgerAfterRun [] cutoff dec ledger pages = ledger := by
  have hnos : ∀ m2 : RawMsg, (processMessage [] cutoff dec m2).isSuccess = false := by
    intro m2
    unfold processMessage
    split
    · split
      · rfl
      · split
        · rfl
        next h => simp [senderMatches_nil] at h
    · split
      · rfl
      next h => simp [senderMatches_nil] at h
  have h2 : (runPages [] cutoff dec (initState ledger) pages).1.filteredEmails = [] := by
    obtain ⟨acc, hf, hp, ht, ho⟩ := runPages_spec [] cutoff dec pages (initState ledger)
    have hacc : acc = [] := by
      cases acc with
      | nil => rfl
      | cons e es =>
        obtain ⟨m2, _, hs⟩ := ho e (List.mem_cons_self e es)
        have := hnos m2
        rw [hs] at this
        simp [ProcResult.isSuccess] at this
    rw [hacc] at hf
    simpa [initState] using hf
  refine ⟨?_, h2, ?_⟩
  · cases hp : processMessage [] cutoff dec m with
    | skipped => exact Or.inl rfl
    | cutoff d => exact Or.inr rfl
    | success e =>
      have := hnos m
      rw [hp] at this
      simp [ProcResult.isSuccess] at this
  · simp [ledgerAfterRun, h2]

/-! ### The Store Synchronizer -/

theorem dedupNew_length_le (l : List Email) : ∀ cur : List String,
    (dedupNew cur l).length ≤ l.length := by
  induction l with
  | nil => intro cur; simp [dedupNew]
  | cons e es ih =>
    intro cur
    unfold dedupNew
    split
    · exact (ih cur).trans (Nat.le_succ _)
    · simpa using ih (cur ++ [e.id])

theorem insertManyGo_spec (l : List Email) : ∀ cur : List String,
    insertManyGo cur l =
      ((dedupNew cur l).length, l.length - (dedupNew cur l).length,
        cur ++ dedupNew cur l) := by
  induction l with
  | nil => intro cur; simp [insertManyGo, dedupNew]
  | cons e es ih =>
    intro cur
    have hdd : dedupNew cur (e :: es) =
        (if cur.contains e.id then dedupNew cur es
         else e.id :: dedupNew (cur ++ [e.id]) es) := rfl
    unfold insertManyGo
    by_cases hc : cur.contains e.id = true
    · rw [if_pos hc, ih cur, hdd, if_pos hc]
      have hk := dedupNew_length_le es cur
      simp only [Prod.mk.injEq, List.length_cons, true_and, and_true]
      omega
    · rw [if_neg hc, ih (cur ++ [e.id]), hdd, if_neg hc]
      have hk := dedupNew_length_le es (cur ++ [e.id])
      simp only [Prod.mk.injEq, List.length_cons, List.append_assoc,
        List.singleton_append, true_and, and_true]
      omega

theorem insertMany_eq (storeIds : List String) (batch : List Email) :
    insertMany storeIds batch =
      (if batch.length - (dedupNew storeIds batch).length == 0 then
        (InsertManyResult.ok (dedupNew storeIds batch).length,
          storeIds ++ dedupNew storeIds batch)
       else
        (InsertManyResult.bulkDupError (dedupNew storeIds batch).length,
          storeIds ++ dedupNew storeIds batch)) := by
  unfold insertMany
  rw [insertManyGo_spec]

theorem processBatch_counts (storeIds : List String) (batch : List Email)
    (stats : LoadStats) :
    (processBatch storeIds batch stats).1.failed = stats.failed ∧
    (processBatch storeIds batch stats).1.errors = stats.errors ∧
    (processBatch storeIds batch stats).1.successful =
      stats.successful + (dedupNew storeIds batch).length ∧
    (processBatch storeIds batch stats).1.duplicates =
      stats.duplicates + (batch.length - (dedupNew storeIds batch).length) ∧
    (processBatch storeIds batch stats).2 = storeIds ++ dedupNew storeIds batch := by
  unfold processBatch
  rw [insertMany_eq]
  by_cases hz : (batch.length - (dedupNew storeIds batch).length == 0) = true
  · rw [if_pos hz]
    have hz2 : batch.length - (dedupNew storeIds batch).length = 0 := by
      simpa using hz
    exact ⟨rfl, rfl, rfl, by simp [hz2], rfl⟩
  · rw [if_neg hz]
    exact ⟨rfl, rfl, rfl, rfl, rfl⟩

theorem loadData_foldl_preserves (chunks : List (List Email)) :
    ∀ acc : LoadStats × List String,
      ((chunks.foldl
          (fun acc chunk =>
            processBatch acc.2 chunk
              { acc.1 with totalProcessed := acc.1.totalProcessed + chunk.length })
          acc).1.failed = acc.1.failed) ∧
      ((chunks.foldl
          (fun acc chunk =>
            processBatch acc.2 chunk
              { acc.1 with totalProcessed := acc.1.totalProcessed + chunk.length })
          acc).1.errors = acc.1.errors) := by
  induction chunks with
  | nil => intro acc; exact ⟨rfl, rfl⟩
  | cons c cs ih =>
    intro acc
    rw [List.foldl_cons]
    obtain ⟨ih1, ih2⟩ := ih (processBatch acc.2 c
      { acc.1 with totalProcessed := acc.1.totalProcessed + c.length })
    obtain ⟨hpf, hpe, _, _, _⟩ := processBatch_counts acc.2 c
      { acc.1 with totalProcessed := acc.1.totalProcessed + c.length }
    exact ⟨by rw [ih1, hpf], by rw [ih2, hpe]⟩

/-- Claim C7 — duplicate resilience: against a store whose only
insertion faults are duplicate-key violations on the unique `id` index,
`_process_batch` never raises and never touches `failed` or `errors`;
it commits exactly the non-conflicting documents (counted in
`successful`), attributes the conflicting count to `duplicates`, and the
store gains exactly the fresh ids.  Consequently a whole reconciliation
pass (`load_data` over any email list) ends with `failed = 0` and no
recorded errors; and every document `sync_mongodb` selects for insertion
is one the store lacks. -/
theorem duplicate_key_batches_resilient
    (storeIds : List String) (batch : List Email) (stats : LoadStats)
    (emails jsonData : List Email) :
    (processBatch storeIds batch stats).1.failed = stats.failed ∧
    (processBatch storeIds batch stats).1.errors = stats.errors ∧
    (processBatch storeIds batch stats).1.successful =
      stats.successful + (dedupNew storeIds batch).length ∧
    (processBatch storeIds batch stats).1.duplicates =
      stats.duplicates + (batch.length - (dedupNew storeIds batch).length) ∧
    (processBatch storeIds batch stats).2 = storeIds ++ dedupNew storeIds batch ∧
    (loadData storeIds emails 100).1.failed = 0 ∧
    (loadData storeIds emails 100).1.errors = [] ∧
    ∀ e ∈ syncMissingDocs jsonData storeIds, e.id ∉ storeIds := by
  obtain ⟨h1, h2, h3, h4, h5⟩ := processBatch_counts storeIds batch stats
  obtain ⟨h6, h7⟩ := loadData_foldl_preserves (chunksOf 100 emails) (emptyStats, storeIds)
  refine ⟨h1, h2, h3, h4, h5, h6, h7, ?_⟩
  intro e he hmem
  have := (List.mem_filter.mp he).2
  simp at this
  exact this (by simpa using hmem)


end ETLNews
